import Mathlib

/-!
# Verification of the MESA output reader (`py_mesa_reader`)

Shallow embedding of the core data model and operations of the repository:

* `MesaData` — a parsed output table (`bulk_names` / `bulk_data` of the
  source, modelled as an association list of named integer columns).
* the derived-field resolver (`MesaData.data` resolution chain:
  `in_data`, `_log_version`, `_ln_version`, `_exp10_version`, `_exp_version`),
  modelled symbolically: the resolver decides *which* column is read and
  *which* transform (`10**`, `exp`, `log10`, `log`) is applied; the
  floating-point arithmetic itself is outside the embedding.
* `MesaData.remove_backups` — the history-consistency filter.
* `MesaData.index_of_model_number` / `data_at_model_number`.
* `MesaProfileIndex` — the profile catalog (`read_index` of
  `mesa_reader/__init__.py`, and `read_index_old` of the legacy flat
  `mesa_reader.py`, which differ in whether the sort survives).
* `MesaLogDir` — the facade: `profile_data` with its memoization cache
  (object identity is modelled by an allocation counter `next_id`), and
  `select_models`.

Error-raising paths are modelled with explicit result inductives.
-/

namespace MesaReader

/-- A parsed MESA output table: the `bulk_data` record array of the source,
as an association list from column name (`bulk_names`) to the column's
values.  Numeric values are modelled as integers: every claim under
verification concerns either the `model_number` column (integral in the
source files) or row selection, never float arithmetic. -/
structure MesaData where
  columns : List (String × List Int)
deriving DecidableEq, Repr

/-- `bulk_names`: the column names, in order. -/
def MesaData.bulk_names (t : MesaData) : List String :=
  t.columns.map (fun p => p.1)

/-- Column lookup (`self.bulk_data[key]`); first column with the name wins,
a missing name yields `[]` (the source would raise, but every use below is
guarded by `in_data`). -/
def MesaData.col (t : MesaData) (name : String) : List Int :=
  (t.columns.lookup name).getD []

/-- `MesaData.in_data`: `key in self.bulk_names`. -/
def MesaData.in_data (t : MesaData) (key : String) : Bool :=
  t.bulk_names.contains key

/-- `MesaData.is_history`: `'model_number' in self.bulk_names`. -/
def MesaData.is_history (t : MesaData) : Bool :=
  t.in_data "model_number"

/-! ## The history-consistency filter (`MesaData.remove_backups`) -/

/-- `np.min` on a list: `none` on the empty list (where `np.min` raises). -/
def npMin : List Int → Option Int
  | [] => none
  | x :: xs => some (xs.foldl min x)

/-- The marking test of `remove_backups` for index `i`:
`self.data('model_number')[i] >= np.min(self.data('model_number')[i+1:])`. -/
def markP (mn : List Int) (i : Nat) : Bool :=
  match npMin (mn.drop (i + 1)) with
  | none => false
  | some m => decide (m ≤ mn.getD i 0)

/-- The `to_remove` list of `remove_backups`: indices `i` in
`range(len(model_number) - 1)` whose value is `>=` the minimum over all
later indices. -/
def backupIndices (mn : List Int) : List Nat :=
  (List.range (mn.length - 1)).filter (fun i => markP mn i)

/-- Helper for `np.delete`: walk the list with a running position `k`,
dropping entries whose position is listed in `idxs`. -/
def removeIdxFrom (idxs : List Nat) : Nat → List Int → List Int
  | _, [] => []
  | k, x :: xs =>
    if k ∈ idxs then removeIdxFrom idxs (k + 1) xs
    else x :: removeIdxFrom idxs (k + 1) xs

/-- `np.delete(arr, idxs)`: remove the entries at the listed positions,
keeping the relative order of the survivors. -/
def deleteIndices (c : List Int) (idxs : List Nat) : List Int :=
  removeIdxFrom idxs 0 c

/-- `MesaData.remove_backups`: on a non-history table, return unchanged
(`return None` before any work); otherwise compute `to_remove` from the
`model_number` column, return unchanged if it is empty, and otherwise
`np.delete` those rows from every column of `bulk_data`. -/
def MesaData.remove_backups (t : MesaData) : MesaData :=
  if t.is_history = false then t
  else if backupIndices (t.col "model_number") = [] then t
  else ⟨t.columns.map
    (fun p => (p.1, deleteIndices p.2 (backupIndices (t.col "model_number"))))⟩

/-- Proof-side restatement of the filter as a structural recursion on the
`model_number` column: drop the head whenever it is `>=` the minimum of the
(nonempty) tail.  `scrub_eq_rbFilter` below identifies it with the
index-based computation actually performed by the source. -/
def rbFilter : List Int → List Int
  | [] => []
  | [a] => [a]
  | a :: b :: t =>
    if t.foldl min b ≤ a then rbFilter (b :: t)
    else a :: rbFilter (b :: t)

/-! ## The derived-field resolver (`MesaData.data`) -/

/-- `MesaData._log_version`: the first of the prefixed names
`log_key, logkey, lg_key, lgkey` (in that order) that is a column. -/
def MesaData.log_version (t : MesaData) (key : String) : Option String :=
  match (["log_", "log", "lg_", "lg"].find? (fun p => t.in_data (p ++ key))) with
  | some p => some (p ++ key)
  | none => none

/-- `MesaData._ln_version`: the first of `ln_key, lnkey` that is a column. -/
def MesaData.ln_version (t : MesaData) (key : String) : Option String :=
  match (["ln_", "ln"].find? (fun p => t.in_data (p ++ key))) with
  | some p => some (p ++ key)
  | none => none

/-- Second stage of the regex `lo?g_?(.+)` / `ln_?(.+)` after the fixed part
is consumed: a greedy optional underscore followed by a nonempty group.  On
`"_"` alone the optional underscore backtracks and the group is `"_"`. -/
def stripUnderscore (r : List Char) : Option (List Char) :=
  match r with
  | [] => none
  | '_' :: r2 => if r2 = [] then some ['_'] else some r2
  | _ => some r

/-- Group captured by `re.match('^lo?g_?(.+)', key)` (`_exp10_version`):
the fixed part accepts `log` or `lg`, then `stripUnderscore`. -/
def exp10Target (key : String) : Option String :=
  match key.data with
  | 'l' :: 'o' :: 'g' :: r => (stripUnderscore r).map (fun g => ⟨g⟩)
  | 'l' :: 'g' :: r => (stripUnderscore r).map (fun g => ⟨g⟩)
  | _ => none

/-- Group captured by `re.match('^ln_?(.+)', key)` (`_exp_version`). -/
def expTarget (key : String) : Option String :=
  match key.data with
  | 'l' :: 'n' :: r => (stripUnderscore r).map (fun g => ⟨g⟩)
  | _ => none

/-- `MesaData._exp10_version`: if `key` matches `^lo?g_?(.+)` and the
captured group is a column, that group. -/
def MesaData.exp10_version (t : MesaData) (key : String) : Option String :=
  match exp10Target key with
  | none => none
  | some g => if t.in_data g then some g else none

/-- `MesaData._exp_version`: if `key` matches `^ln_?(.+)` and the captured
group is a column, that group. -/
def MesaData.exp_version (t : MesaData) (key : String) : Option String :=
  match expTarget key with
  | none => none
  | some g => if t.in_data g then some g else none

/-- `MesaData._any_version`: `key` reaches some column directly or through
a logarithmic/exponential counterpart (the `or`-chain of the source). -/
def MesaData.any_version (t : MesaData) (key : String) : Bool :=
  t.in_data key || (t.log_version key).isSome || (t.ln_version key).isSome ||
    (t.exp_version key).isSome || (t.exp10_version key).isSome

/-- What `MesaData.data` computes, symbolically: which column is read and
which arithmetic transform (`10**x`, `e**x`, `log10 x`, `ln x`, or none)
is applied to it. -/
inductive FieldValue where
  | column (name : String)
  | pow10 (name : String)
  | expE (name : String)
  | log10 (name : String)
  | logE (name : String)
deriving DecidableEq, Repr

/-- Outcome of `MesaData.data`: a resolved array or a `KeyError`. -/
inductive DataResult where
  | arr (v : FieldValue)
  | keyError
deriving DecidableEq, Repr

/-- `MesaData.data`, translated from the source: the five-way `elif` chain
over `in_data`, `_log_version`, `_ln_version`, `_exp10_version`,
`_exp_version`, ending in `KeyError`. -/
def MesaData.dataResolve (t : MesaData) (key : String) : DataResult :=
  if t.in_data key then .arr (.column key)
  else
    match t.log_version key with
    | some n => .arr (.pow10 n)
    | none =>
      match t.ln_version key with
      | some n => .arr (.expE n)
      | none =>
        match t.exp10_version key with
        | some n => .arr (.log10 n)
        | none =>
          match t.exp_version key with
          | some n => .arr (.logE n)
          | none => .keyError

/-- Modelled from the spec's words (§4.3): `get(key)` resolves to the
literal column if present; else `10**` the first existing column among
`log_key, logkey, lg_key, lgkey`; else `e**` the first existing column
among `ln_key, lnkey`; else, if `key` matches `^lo?g_?(X)` and `X` is a
column, `log10` of it; else, if `key` matches `^ln_?(X)` and `X` is a
column, `ln` of it; else a key error.  Written for comparison with the
source translation `MesaData.dataResolve`. -/
def MesaData.dataResolveSpec (t : MesaData) (key : String) : DataResult :=
  if t.in_data key then .arr (.column key)
  else
    match (["log_", "log", "lg_", "lg"].find? (fun p => t.in_data (p ++ key))) with
    | some p => .arr (.pow10 (p ++ key))
    | none =>
      match (["ln_", "ln"].find? (fun p => t.in_data (p ++ key))) with
      | some p => .arr (.expE (p ++ key))
      | none =>
        match exp10Target key with
        | some x =>
          if t.in_data x then .arr (.log10 x)
          else
            match expTarget key with
            | some y => if t.in_data y then .arr (.logE y) else .keyError
            | none => .keyError
        | none =>
          match expTarget key with
          | some y => if t.in_data y then .arr (.logE y) else .keyError
          | none => .keyError

/-! ## Model-number indexing (`index_of_model_number`, `data_at_model_number`) -/

/-- Outcome of `MesaData.index_of_model_number`. -/
inductive IndexResult where
  | historyErr
  | modelNumberErr
  | ok (i : Nat)
deriving DecidableEq, Repr

/-- `MesaData.index_of_model_number`: `HistoryError` on a non-history
table; otherwise `index = np.where(model_number == m_num)[0]`, with
`ModelNumberError` when `len(index) > 1` or `len(index) == 0`, and
`index[0]` when exactly one. -/
def MesaData.index_of_model_number (t : MesaData) (m_num : Int) : IndexResult :=
  if t.is_history = false then .historyErr
  else
    let idx := (List.range (t.col "model_number").length).filter
      (fun i => decide ((t.col "model_number").getD i 0 = m_num))
    if 1 < idx.length then .modelNumberErr
    else if idx.length = 0 then .modelNumberErr
    else .ok (idx.getD 0 0)

/-- Errors surfaced through `data_at_model_number`. -/
inductive TableError where
  | historyErr
  | modelNumberErr
deriving DecidableEq, Repr

/-- `MesaData.data_at_model_number`:
`self.data(key)[self.index_of_model_number(m_num)]`.  The numeric value is
modelled for literal columns (the only use below, `select_models`, reaches
it only after its `in_data` check on every key). -/
def MesaData.data_at_model_number (t : MesaData) (key : String) (m_num : Int) :
    Except TableError Int :=
  match t.index_of_model_number m_num with
  | .historyErr => .error .historyErr
  | .modelNumberErr => .error .modelNumberErr
  | .ok i => .ok ((t.col key).getD i 0)

/-! ## The profile index (`MesaProfileIndex`) -/

/-- The catalog after `read_index`: the three columns of the index file,
as produced by `dict(zip(index_names, rows.T))`. -/
structure MesaProfileIndex where
  model_numbers : List Int
  priorities : List Int
  profile_numbers : List Int
deriving DecidableEq, Repr

/-- `rows[np.argsort(rows[:, 0])]`: sort the parsed rows by their first
field (the model number).  `np.argsort` sorts by key; ties (duplicate model
numbers, undefined behaviour per the catalog contract) are resolved here by
a stable sort. -/
def sortByModel (rows : List (Int × Int × Int)) : List (Int × Int × Int) :=
  List.insertionSort (fun a b => a.1 ≤ b.1) rows

/-- Column split of the parsed rows (`dict(zip(index_names, data.T))`). -/
def indexFromRows (rows : List (Int × Int × Int)) : MesaProfileIndex :=
  { model_numbers := rows.map (fun r => r.1)
    priorities := rows.map (fun r => r.2.1)
    profile_numbers := rows.map (fun r => r.2.2) }

/-- `MesaProfileIndex.read_index` of `mesa_reader/__init__.py`, applied to
the rows parsed by `np.genfromtxt`: it assigns
`self.index_data = temp_index_data[np.argsort(temp_index_data[:, 0])]` and
then immediately rebuilds `self.index_data` as
`dict(zip(index_names, temp_index_data.T))` — from the **unsorted**
`temp_index_data`, discarding the sorted array. -/
def MesaProfileIndex.read_index (rows : List (Int × Int × Int)) : MesaProfileIndex :=
  let sortedDiscarded := sortByModel rows
  let _ := sortedDiscarded
  indexFromRows rows

/-- `MesaProfileIndex.read_index` of the legacy flat `mesa_reader.py`: there
the dict is built from `self.index_data`, which at that point holds the
sorted rows. -/
def MesaProfileIndex.read_index_old (rows : List (Int × Int × Int)) : MesaProfileIndex :=
  indexFromRows (sortByModel rows)

/-- `have_profile_with_model_number`: membership in the model-number column. -/
def MesaProfileIndex.have_profile_with_model_number
    (idx : MesaProfileIndex) (model_number : Int) : Bool :=
  idx.model_numbers.contains model_number

/-- `MesaProfileIndex.profile_with_model_number`: `ProfileError` (`none`)
when the model number is absent; otherwise
`np.take(profile_numbers, np.where(model_numbers == m)[0])[0]`, i.e. the
profile number at the first index whose model number matches. -/
def MesaProfileIndex.profile_with_model_number
    (idx : MesaProfileIndex) (model_number : Int) : Option Int :=
  if idx.have_profile_with_model_number model_number = false then none
  else some (idx.profile_numbers.getD
    (idx.model_numbers.findIdx (fun x => x == model_number)) 0)

/-! ## The log-directory facade (`MesaLogDir`) -/

/-- The mutable state of a `MesaLogDir` relevant to `profile_data`:
the naming configuration, the parsed index, the memoization cache
`profile_dict`, and an allocation counter `next_id` that models object
identity — every `MesaData(file_name)` parse returns a fresh identity. -/
structure MesaLogDir where
  log_path : String
  prefixStr : String
  suffixStr : String
  memoize_profiles : Bool
  profiles : MesaProfileIndex
  profile_numbers : List Int
  profile_dict : List (Int × Nat)
  next_id : Nat
deriving DecidableEq, Repr

/-- Outcome of `MesaLogDir.profile_data`.  `hit` returns the identity held
in `profile_dict`; `fresh` is a newly parsed `MesaData(file)` with a new
identity; `profileError` is the `ProfileError` from
`profile_with_model_number`; `emptyIndexError` is the `IndexError` from
`self.profile_numbers[-1]` on an empty index. -/
inductive ProfileDataResult where
  | hit (id : Nat)
  | fresh (id : Nat) (file : String)
  | profileError
  | emptyIndexError
deriving DecidableEq, Repr

/-- The snapshot path `os.path.join(log_path, prefix + str(n) + '.' + suffix)`. -/
def MesaLogDir.profileFile (d : MesaLogDir) (to_use : Int) : String :=
  d.log_path ++ "/" ++ d.prefixStr ++ toString to_use ++ "." ++ d.suffixStr

/-- The tail of `profile_data` once `to_use` is resolved: return the cached
object if `to_use in self.profile_dict` (regardless of the memoization
flag), else parse `MesaData(file_name)` (a fresh identity) and store it in
the cache only when `memoize_profiles` is set. -/
def MesaLogDir.fetch (d : MesaLogDir) (to_use : Int) : ProfileDataResult × MesaLogDir :=
  match d.profile_dict.lookup to_use with
  | some pid => (.hit pid, d)
  | none =>
    (.fresh d.next_id (d.profileFile to_use),
      { d with
        next_id := d.next_id + 1
        profile_dict :=
          if d.memoize_profiles then (to_use, d.next_id) :: d.profile_dict
          else d.profile_dict })

/-- `MesaLogDir.profile_data`: resolve `to_use` — the last profile number
when both arguments are the `-1` sentinel, the given `profile_number`
directly when only it is supplied, and the catalog lookup
`profile_with_model_number` when `model_number` is supplied — then `fetch`. -/
def MesaLogDir.profile_data (d : MesaLogDir) (model_number profile_number : Int) :
    ProfileDataResult × MesaLogDir :=
  if model_number = -1 then
    if profile_number = -1 then
      match d.profile_numbers.getLast? with
      | none => (.emptyIndexError, d)
      | some n => d.fetch n
    else d.fetch profile_number
  else
    match d.profiles.profile_with_model_number model_number with
    | none => (.profileError, d)
    | some p => d.fetch p

/-! ## `select_models` -/

/-- The for-loop over a list raising the first error (used for the nested
loops of `select_models`, which build `inputs` one value at a time and
propagate the first raised error). -/
def exceptMapList {α β ε : Type} (f : α → Except ε β) : List α → Except ε (List β)
  | [] => .ok []
  | a :: as =>
    match f a with
    | .error e => .error e
    | .ok b =>
      match exceptMapList f as with
      | .error e => .error e
      | .ok bs => .ok (b :: bs)

/-- Outcome of `MesaLogDir.select_models`. -/
inductive SelectResult where
  | keyError
  | histError
  | modelError
  | ok (models : List Int)
deriving DecidableEq, Repr

/-- `MesaLogDir.select_models` over the history table and the catalog's
`model_numbers`: first raise `KeyError` if any requested key fails
`self.history.in_data`; then gather
`inputs[m] = [data_at_model_number(key, m) for key in keys]` for every
catalog model number (propagating `HistoryError` / `ModelNumberError`);
finally return `model_numbers[mask]` where `mask` applies `f` to each row. -/
def MesaLogDir.select_models (hist : MesaData) (model_numbers : List Int)
    (f : List Int → Bool) (keys : List String) : SelectResult :=
  if keys.any (fun k => !hist.in_data k) then .keyError
  else
    match exceptMapList
        (fun m => exceptMapList (fun k => hist.data_at_model_number k m) keys)
        model_numbers with
    | .error .historyErr => .histError
    | .error .modelNumberErr => .modelError
    | .ok rows =>
      .ok (((model_numbers.zip rows).filter (fun p => f p.2)).map (fun p => p.1))

/-- The history value `data(key)[index_of_model_number(m)]` as a total
function (defaulting to `0` on the error paths); used to state what
`select_models` returns when every lookup succeeds. -/
def histValueAt (hist : MesaData) (key : String) (m : Int) : Int :=
  match hist.index_of_model_number m with
  | .ok i => (hist.col key).getD i 0
  | _ => 0

/-! ## Concrete inputs used by witnesses and counterexamples -/

/-- The spec's concrete restart scenario: a history file whose
`model_number` column is `[1, 2, 3, 2, 3, 4]`. -/
def exHist : MesaData :=
  ⟨[("model_number", [1, 2, 3, 2, 3, 4]), ("star_age", [10, 20, 30, 40, 50, 60])]⟩

/-- A history table carrying `log_L` but not `L`. -/
def exHistLog : MesaData :=
  ⟨[("model_number", [1, 2]), ("log_L", [3, 4])]⟩

/-- A small log directory with an empty cache and memoization enabled. -/
def exLogDir : MesaLogDir :=
  { log_path := "LOGS", prefixStr := "profile", suffixStr := "data"
    memoize_profiles := true
    profiles := ⟨[7], [1], [3]⟩, profile_numbers := [3]
    profile_dict := [], next_id := 0 }

/-- The identity of the object returned by `profile_data` (`0` on the
error outcomes, which carry no object). -/
def pdId : ProfileDataResult → Nat
  | .hit i => i
  | .fresh i _ => i
  | .profileError => 0
  | .emptyIndexError => 0

/-- `exLogDir` after caching profile 5 (while memoization was on) and then
switching memoization off. -/
def exLogDirOff : MesaLogDir :=
  { (exLogDir.profile_data (-1) 5).2 with memoize_profiles := false }

/-! # Theorems

## Helper lemmas about the minimum fold and index deletion -/

theorem foldlMin_mem (x : Int) (xs : List Int) : xs.foldl min x ∈ x :: xs := by
  induction xs generalizing x with
  | nil => simp
  | cons a xs ih =>
    have h := ih (min x a)
    simp only [List.foldl_cons]
    rcases List.mem_cons.mp h with h1 | h2
    · rcases min_choice x a with hx | ha
      · rw [h1, hx]; exact List.mem_cons_self _ _
      · rw [h1, ha]; exact List.mem_cons_of_mem _ (List.mem_cons_self _ _)
    · exact List.mem_cons_of_mem _ (List.mem_cons_of_mem _ h2)

theorem foldlMin_le (x : Int) (xs : List Int) : ∀ y ∈ x :: xs, xs.foldl min x ≤ y := by
  induction xs generalizing x with
  | nil =>
    intro y hy
    rcases List.mem_cons.mp hy with rfl | h
    · exact le_refl _
    · exact absurd h (List.not_mem_nil _)
  | cons a xs ih =>
    intro y hy
    simp only [List.foldl_cons]
    have hle : xs.foldl min (min x a) ≤ min x a := ih (min x a) _ (List.mem_cons_self _ _)
    rcases List.mem_cons.mp hy with rfl | hy'
    · exact le_trans hle (min_le_left _ _)
    · rcases List.mem_cons.mp hy' with rfl | hy''
      · exact le_trans hle (min_le_right _ _)
      · exact ih (min x a) _ (List.mem_cons_of_mem _ hy'')

theorem removeIdxFrom_nil (k : Nat) (xs : List Int) : removeIdxFrom [] k xs = xs := by
  induction xs generalizing k with
  | nil => rfl
  | cons x xs ih => simp [removeIdxFrom, ih]

theorem removeIdxFrom_shift (J : List Nat) (k : Nat) (xs : List Int) :
    removeIdxFrom (J.map (fun i => i + 1)) (k + 1) xs = removeIdxFrom J k xs := by
  induction xs generalizing k with
  | nil => rfl
  | cons x xs ih =>
    have hmem : (k + 1 ∈ J.map (fun i => i + 1)) ↔ k ∈ J := by simp
    rw [removeIdxFrom, removeIdxFrom]
    by_cases h : k ∈ J
    · rw [if_pos (hmem.mpr h), if_pos h, ih]
    · rw [if_neg (fun hh => h (hmem.mp hh)), if_neg h, ih]

theorem removeIdxFrom_cons_zero (J : List Nat) (k : Nat) (xs : List Int) :
    removeIdxFrom (0 :: J) (k + 1) xs = removeIdxFrom J (k + 1) xs := by
  induction xs generalizing k with
  | nil => rfl
  | cons x xs ih =>
    have hmem : (k + 1 ∈ (0 :: J)) ↔ k + 1 ∈ J := by simp
    rw [removeIdxFrom, removeIdxFrom]
    by_cases h : k + 1 ∈ J
    · rw [if_pos (hmem.mpr h), if_pos h]; exact ih (k + 1)
    · rw [if_neg (fun hh => h (hmem.mp hh)), if_neg h]
      rw [ih (k + 1)]

theorem removeIdxFrom_sublist (J : List Nat) (k : Nat) (xs : List Int) :
    (removeIdxFrom J k xs).Sublist xs := by
  induction xs generalizing k with
  | nil => exact List.Sublist.refl _
  | cons x xs ih =>
    rw [removeIdxFrom]
    by_cases h : k ∈ J
    · rw [if_pos h]; exact (ih (k + 1)).cons x
    · rw [if_neg h]; exact (ih (k + 1)).cons₂ x

/-! ## The marking set of `remove_backups` -/

theorem backupIndices_cons (a b : Int) (t : List Int) :
    backupIndices (a :: b :: t) =
      (if t.foldl min b ≤ a then [0] else []) ++
        (backupIndices (b :: t)).map (fun i => i + 1) := by
  have hfun : ((fun i => markP (a :: b :: t) i) ∘ Nat.succ) =
      (fun i => markP (b :: t) i) := rfl
  show (List.range ((a :: b :: t).length - 1)).filter (fun i => markP (a :: b :: t) i) = _
  have hlen : (a :: b :: t).length - 1 = t.length + 1 := rfl
  rw [hlen, List.range_succ_eq_map, List.filter_cons, List.filter_map, hfun]
  have hb : backupIndices (b :: t) = (List.range t.length).filter (fun i => markP (b :: t) i) := rfl
  have hm0 : markP (a :: b :: t) 0 = decide (t.foldl min b ≤ a) := rfl
  rw [hb, hm0]
  have hsucc : (List.map Nat.succ ((List.range t.length).filter (fun i => markP (b :: t) i))) =
      (List.map (fun i => i + 1) ((List.range t.length).filter (fun i => markP (b :: t) i))) := by
    simp [Nat.succ_eq_add_one]
  rw [hsucc]
  by_cases hc : t.foldl min b ≤ a
  · simp [hc]
  · simp [hc]

theorem scrub_eq_rbFilter (l : List Int) :
    deleteIndices l (backupIndices l) = rbFilter l := by
  induction l with
  | nil => rfl
  | cons a l ih =>
    cases l with
    | nil =>
      show removeIdxFrom [] 0 [a] = [a]
      exact removeIdxFrom_nil 0 [a]
    | cons b t =>
      rw [rbFilter, backupIndices_cons]
      show removeIdxFrom _ 0 (a :: b :: t) = _
      by_cases hc : t.foldl min b ≤ a
      · rw [if_pos hc, if_pos hc]
        rw [removeIdxFrom]
        rw [if_pos (by simp)]
        show removeIdxFrom (0 :: (backupIndices (b :: t)).map (fun i => i + 1)) 1 (b :: t) = _
        rw [removeIdxFrom_cons_zero _ 0, removeIdxFrom_shift _ 0]
        exact ih
      · rw [if_neg hc, if_neg hc]
        rw [removeIdxFrom]
        rw [if_neg (by simp)]
        show a :: removeIdxFrom ((backupIndices (b :: t)).map (fun i => i + 1)) 1 (b :: t) = _
        rw [removeIdxFrom_shift _ 0]
        exact congrArg (List.cons a) ih

theorem rbFilter_sublist (l : List Int) : (rbFilter l).Sublist l := by
  induction l with
  | nil => exact List.Sublist.refl _
  | cons a l ih =>
    cases l with
    | nil => exact List.Sublist.refl _
    | cons b t =>
      rw [rbFilter]
      by_cases hc : t.foldl min b ≤ a
      · rw [if_pos hc]; exact ih.cons a
      · rw [if_neg hc]; exact ih.cons₂ a

theorem rbFilter_pairwise (l : List Int) : (rbFilter l).Pairwise (· < ·) := by
  induction l with
  | nil => exact List.Pairwise.nil
  | cons a l ih =>
    cases l with
    | nil => exact List.pairwise_singleton _ _
    | cons b t =>
      rw [rbFilter]
      by_cases hc : t.foldl min b ≤ a
      · rw [if_pos hc]; exact ih
      · rw [if_neg hc]
        refine List.Pairwise.cons ?_ ih
        intro y hy
        have hmem : y ∈ b :: t := (rbFilter_sublist (b :: t)).mem hy
        have hmin : t.foldl min b ≤ y := foldlMin_le b t y hmem
        omega

theorem rbFilter_of_pairwise (l : List Int) (h : l.Pairwise (· < ·)) : rbFilter l = l := by
  induction l with
  | nil => rfl
  | cons a l ih =>
    cases l with
    | nil => rfl
    | cons b t =>
      rw [rbFilter]
      have ha : ∀ y ∈ b :: t, a < y := (List.pairwise_cons.mp h).1
      have hlt : a < t.foldl min b := ha _ (foldlMin_mem b t)
      rw [if_neg (by omega)]
      rw [ih (List.pairwise_cons.mp h).2]

theorem pairwise_lt_getD (l : List Int) (hp : l.Pairwise (· < ·)) (i j : Nat)
    (hij : i < j) (hj : j < l.length) : l.getD i 0 < l.getD j 0 := by
  have hi : i < l.length := lt_trans hij hj
  rw [List.getD_eq_getElem l 0 hi, List.getD_eq_getElem l 0 hj]
  exact List.pairwise_iff_getElem.mp hp i j hi hj hij

theorem mem_backupIndices_iff (mn : List Int) (i : Nat) :
    i ∈ backupIndices mn ↔
      (i + 1 < mn.length ∧
        ∃ j, i < j ∧ j < mn.length ∧ mn.getD j 0 ≤ mn.getD i 0) := by
  unfold backupIndices
  rw [List.mem_filter, List.mem_range]
  constructor
  · rintro ⟨hir, hp⟩
    have hi1 : i + 1 < mn.length := by omega
    refine ⟨hi1, ?_⟩
    unfold markP at hp
    cases hd : mn.drop (i + 1) with
    | nil =>
      rw [hd] at hp
      simp [npMin] at hp
    | cons x xs =>
      rw [hd] at hp
      simp only [npMin] at hp
      have hle : xs.foldl min x ≤ mn.getD i 0 := of_decide_eq_true hp
      have hmem : xs.foldl min x ∈ mn.drop (i + 1) := by
        rw [hd]; exact foldlMin_mem x xs
      rcases List.mem_iff_getElem.mp hmem with ⟨k, hk, hgk⟩
      have hlen : i + 1 + k < mn.length := by
        have := List.length_drop (i + 1) mn
        omega
      refine ⟨i + 1 + k, by omega, hlen, ?_⟩
      rw [List.getD_eq_getElem mn 0 hlen]
      rw [← @List.getElem_drop _ mn (i + 1) k hk, hgk]
      exact hle
  · rintro ⟨hi1, j, hij, hjl, hle⟩
    refine ⟨by omega, ?_⟩
    unfold markP
    cases hd : mn.drop (i + 1) with
    | nil =>
      have hcon := List.length_drop (i + 1) mn
      rw [hd] at hcon
      simp at hcon
      omega
    | cons x xs =>
      simp only [npMin]
      apply decide_eq_true
      have hk : j - (i + 1) < (mn.drop (i + 1)).length := by
        rw [List.length_drop]; omega
      have hdj : (mn.drop (i + 1))[j - (i + 1)] = mn[j] := by
        rw [List.getElem_drop]
        congr 1
        omega
      have hmemj : mn[j] ∈ mn.drop (i + 1) := by
        rw [← hdj]
        exact List.getElem_mem hk
      rw [hd] at hmemj
      have hminle := foldlMin_le x xs _ hmemj
      have hgd : mn.getD j 0 = mn[j] := List.getD_eq_getElem mn 0 hjl
      rw [hgd] at hle
      exact le_trans hminle hle

theorem backupIndices_eq_nil_of_pairwise (l : List Int) (hp : l.Pairwise (· < ·)) :
    backupIndices l = [] := by
  rw [List.eq_nil_iff_forall_not_mem]
  intro i hi
  rcases (mem_backupIndices_iff l i).mp hi with ⟨hlen, j, hij, hjl, hle⟩
  have := pairwise_lt_getD l hp i j hij hjl
  omega

/-! ## Table-level consequences -/

theorem lookup_map_del (cols : List (String × List Int)) (M : List Nat)
    (k : String) :
    (cols.map (fun p => (p.1, deleteIndices p.2 M))).lookup k =
      (cols.lookup k).map (fun c => deleteIndices c M) := by
  induction cols with
  | nil => rfl
  | cons c cols ih =>
    rcases c with ⟨n, v⟩
    simp only [List.map_cons, List.lookup_cons]
    cases h : (k == n) with
    | true => rfl
    | false => exact ih

theorem col_mk (cols : List (String × List Int)) (name : String) :
    (⟨cols⟩ : MesaData).col name = (cols.lookup name).getD [] := rfl

theorem col_eq (t : MesaData) (name : String) :
    t.col name = (t.columns.lookup name).getD [] := rfl

theorem bulk_names_mk (cols : List (String × List Int)) :
    (⟨cols⟩ : MesaData).bulk_names = cols.map (fun p => p.1) := rfl

theorem remove_backups_col (t : MesaData) (h : t.is_history = true) (name : String) :
    (t.remove_backups).col name =
      deleteIndices (t.col name) (backupIndices (t.col "model_number")) := by
  unfold MesaData.remove_backups
  rw [h]
  rw [if_neg (by simp)]
  by_cases hr : backupIndices (t.col "model_number") = []
  · rw [if_pos hr, hr]
    exact (removeIdxFrom_nil _ _).symm
  · rw [if_neg hr]
    rw [col_mk, col_eq t name, lookup_map_del]
    cases hl : t.columns.lookup name with
    | some c => rfl
    | none => rfl

theorem remove_backups_bulk_names (t : MesaData) :
    (t.remove_backups).bulk_names = t.bulk_names := by
  unfold MesaData.remove_backups
  by_cases h1 : t.is_history = false
  · rw [if_pos h1]
  · rw [if_neg h1]
    by_cases h2 : backupIndices (t.col "model_number") = []
    · rw [if_pos h2]
    · rw [if_neg h2, bulk_names_mk, List.map_map]
      rfl

theorem remove_backups_is_history (t : MesaData) :
    (t.remove_backups).is_history = t.is_history := by
  unfold MesaData.is_history MesaData.in_data
  rw [remove_backups_bulk_names]

theorem remove_backups_model_number (t : MesaData) (h : t.is_history = true) :
    (t.remove_backups).col "model_number" = rbFilter (t.col "model_number") := by
  rw [remove_backups_col t h, scrub_eq_rbFilter]

theorem remove_backups_eq_self (t : MesaData)
    (hm : backupIndices (t.col "model_number") = []) :
    t.remove_backups = t := by
  unfold MesaData.remove_backups
  by_cases h1 : t.is_history = false
  · rw [if_pos h1]
  · rw [if_neg h1, if_pos hm]

/-! ## Claim C1 -/

/-- **C1** (functional correctness of `remove_backups`): on a time-series
table, the marked indices are exactly those `i` other than the last whose
`model_number` is `≥` the minimum over all later positions (equivalently:
some later value is `≤` the value at `i`); the marked rows are deleted
from every column, preserving the relative order of survivors (the result
is a sublist of each column); and on the concrete input `[1, 2, 3, 2, 3, 4]`
the marks are `[1, 2]`, keeping original indices `{0, 3, 4, 5}`, i.e.
model numbers `[1, 2, 3, 4]`. -/
theorem C1_remove_backups_marks (t : MesaData) (h : t.is_history = true) :
    (∀ i, i ∈ backupIndices (t.col "model_number") ↔
      (i + 1 < (t.col "model_number").length ∧
        ∃ j, i < j ∧ j < (t.col "model_number").length ∧
          (t.col "model_number").getD j 0 ≤ (t.col "model_number").getD i 0)) ∧
    (∀ name, (t.remove_backups).col name =
      deleteIndices (t.col name) (backupIndices (t.col "model_number"))) ∧
    (∀ name, ((t.remove_backups).col name).Sublist (t.col name)) ∧
    (t.col "model_number" = [1, 2, 3, 2, 3, 4] →
      backupIndices (t.col "model_number") = [1, 2] ∧
      (t.remove_backups).col "model_number" = [1, 2, 3, 4]) := by
  refine ⟨fun i => mem_backupIndices_iff _ i, fun name => remove_backups_col t h name,
    ?_, ?_⟩
  · intro name
    rw [remove_backups_col t h name]
    exact removeIdxFrom_sublist _ _ _
  · intro hmn
    constructor
    · rw [hmn]; decide
    · rw [remove_backups_col t h, hmn]; decide

/-- Witness for C1 at the spec's concrete restart scenario. -/
theorem C1_remove_backups_marks_witness :
    exHist.is_history = true ∧
    backupIndices (exHist.col "model_number") = [1, 2] ∧
    (exHist.remove_backups).col "model_number" = [1, 2, 3, 4] :=
  ⟨rfl, (C1_remove_backups_marks exHist rfl).2.2.2 rfl⟩

/-! ## Claim C4 -/

/-- **C4** counterexample: the claim asserts that some time-series table
exists whose filtered `model_number` column contains an adjacent pair with
the earlier value `≥` the later one; this proves its negation — no such
table exists. -/
theorem C4_counterexample :
    ¬ ∃ t : MesaData, t.is_history = true ∧
      ∃ i, i + 1 < ((t.remove_backups).col "model_number").length ∧
        ((t.remove_backups).col "model_number").getD (i + 1) 0 ≤
          ((t.remove_backups).col "model_number").getD i 0 := by
  rintro ⟨t, ht, i, hlen, hle⟩
  have hp : ((t.remove_backups).col "model_number").Pairwise (· < ·) := by
    rw [remove_backups_model_number t ht]
    exact rbFilter_pairwise _
  have hlt := pairwise_lt_getD _ hp i (i + 1) (by omega) hlen
  omega

/-- **C4** amended: after `remove_backups`, the surviving `model_number`
sequence is always strictly increasing (pairwise, so in particular every
adjacent surviving pair strictly increases). -/
theorem C4_amended_strict_increase (t : MesaData) (h : t.is_history = true) :
    ((t.remove_backups).col "model_number").Pairwise (· < ·) := by
  rw [remove_backups_model_number t h]
  exact rbFilter_pairwise _

/-- Witness for the amended C4. -/
theorem C4_amended_strict_increase_witness :
    exHist.is_history = true ∧
    ((exHist.remove_backups).col "model_number").Pairwise (· < ·) :=
  ⟨rfl, C4_amended_strict_increase exHist rfl⟩

/-! ## Claim C9 -/

/-- **C9**: `remove_backups` is idempotent — on the output of the filter
the marking pass marks nothing, and a second application leaves the table
(every column of it) unchanged. -/
theorem C9_remove_backups_idempotent (t : MesaData) (h : t.is_history = true) :
    backupIndices ((t.remove_backups).col "model_number") = [] ∧
    (t.remove_backups).remove_backups = t.remove_backups := by
  have hmarks : backupIndices ((t.remove_backups).col "model_number") = [] := by
    rw [remove_backups_model_number t h]
    exact backupIndices_eq_nil_of_pairwise _ (rbFilter_pairwise _)
  exact ⟨hmarks, remove_backups_eq_self _ hmarks⟩

/-- Witness for C9. -/
theorem C9_remove_backups_idempotent_witness :
    backupIndices ((exHist.remove_backups).col "model_number") = [] ∧
    exHist.remove_backups.remove_backups = exHist.remove_backups :=
  C9_remove_backups_idempotent exHist rfl

/-! ## Claim C8 -/

theorem filter_range_getD_count (l : List Int) (m : Int) :
    ((List.range l.length).filter (fun i => decide (l.getD i 0 = m))).length =
      l.countP (fun x => decide (x = m)) := by
  induction l with
  | nil => rfl
  | cons a xs ih =>
    have hfun : ((fun i => decide ((a :: xs).getD i 0 = m)) ∘ Nat.succ) =
        (fun i => decide (xs.getD i 0 = m)) := rfl
    rw [show (a :: xs).length = xs.length + 1 from rfl, List.range_succ_eq_map,
      List.filter_cons, List.filter_map, hfun, List.countP_cons]
    by_cases hc : a = m
    · rw [if_pos (decide_eq_true (show (a :: xs).getD 0 0 = m from hc)),
        if_pos (decide_eq_true hc)]
      simp only [List.length_cons, List.length_map]
      omega
    · rw [if_neg (by simpa using hc), if_neg (by simpa using hc)]
      simp only [List.length_map]
      omega

/-- **C8**: `index_of_model_number` raises `HistoryError` on a table
without a `model_number` column; on a time-series table it raises
`ModelNumberError` exactly when the number of matching rows differs
from one, and with exactly one match it returns the unique matching
index — zero and multiple matches are reported, never silently resolved. -/
theorem C8_index_of_model_number (t : MesaData) (m : Int) :
    (t.is_history = false → t.index_of_model_number m = .historyErr) ∧
    (t.is_history = true →
      ((t.index_of_model_number m = .modelNumberErr) ↔
        (t.col "model_number").countP (fun x => decide (x = m)) ≠ 1)) ∧
    (∀ i, t.index_of_model_number m = .ok i →
      (t.col "model_number").getD i 0 = m ∧ i < (t.col "model_number").length ∧
        ∀ j, j < (t.col "model_number").length →
          (t.col "model_number").getD j 0 = m → j = i) := by
  have hcount := filter_range_getD_count (t.col "model_number") m
  refine ⟨?_, ?_, ?_⟩
  · intro h
    unfold MesaData.index_of_model_number
    rw [if_pos h]
  · intro h
    unfold MesaData.index_of_model_number
    rw [if_neg (by rw [h]; simp)]
    by_cases h1 : 1 < ((List.range (t.col "model_number").length).filter
        (fun i => decide ((t.col "model_number").getD i 0 = m))).length
    · rw [if_pos h1]
      constructor
      · intro _; omega
      · intro _; rfl
    · rw [if_neg h1]
      by_cases h0 : ((List.range (t.col "model_number").length).filter
          (fun i => decide ((t.col "model_number").getD i 0 = m))).length = 0
      · rw [if_pos h0]
        constructor
        · intro _; omega
        · intro _; rfl
      · rw [if_neg h0]
        constructor
        · intro hcon; exact absurd hcon (by simp)
        · intro hne; omega
  · intro i hok
    unfold MesaData.index_of_model_number at hok
    by_cases hh : t.is_history = false
    · rw [if_pos hh] at hok; exact absurd hok (by simp)
    · rw [if_neg hh] at hok
      by_cases h1 : 1 < ((List.range (t.col "model_number").length).filter
          (fun i => decide ((t.col "model_number").getD i 0 = m))).length
      · rw [if_pos h1] at hok; exact absurd hok (by simp)
      · rw [if_neg h1] at hok
        by_cases h0 : ((List.range (t.col "model_number").length).filter
            (fun i => decide ((t.col "model_number").getD i 0 = m))).length = 0
        · rw [if_pos h0] at hok; exact absurd hok (by simp)
        · rw [if_neg h0] at hok
          have hlen1 : ((List.range (t.col "model_number").length).filter
              (fun i => decide ((t.col "model_number").getD i 0 = m))).length = 1 := by
            omega
          rcases List.length_eq_one.mp hlen1 with ⟨a, ha⟩
          have hi : i = a := by
            have : IndexResult.ok (((List.range (t.col "model_number").length).filter
                (fun i => decide ((t.col "model_number").getD i 0 = m))).getD 0 0) =
                IndexResult.ok i := hok
            rw [ha] at this
            simpa using this.symm
          subst hi
          have hamem : i ∈ (List.range (t.col "model_number").length).filter
              (fun i => decide ((t.col "model_number").getD i 0 = m)) := by
            rw [ha]; exact List.mem_cons_self _ _
          rw [List.mem_filter, List.mem_range] at hamem
          refine ⟨of_decide_eq_true hamem.2, hamem.1, ?_⟩
          intro j hj hjm
          have hjmem : j ∈ (List.range (t.col "model_number").length).filter
              (fun i => decide ((t.col "model_number").getD i 0 = m)) := by
            rw [List.mem_filter, List.mem_range]
            exact ⟨hj, decide_eq_true hjm⟩
          rw [ha] at hjmem
          simpa using hjmem

/-- Witness for C8: on the concrete restart table, model number 2 occurs
twice, so the reverse lookup reports `ModelNumberError`. -/
theorem C8_index_of_model_number_witness :
    exHist.index_of_model_number 2 = .modelNumberErr ↔
      (exHist.col "model_number").countP (fun x => decide (x = 2)) ≠ 1 :=
  (C8_index_of_model_number exHist 2).2.1 rfl

/-! ## Claim C2 -/

/-- **C2**: `data(key)` resolves in the fixed order — literal column, then
`10**` of the first existing `log_`/`log`/`lg_`/`lg`-prefixed column, then
`e**` of the first existing `ln_`/`ln`-prefixed column, then `log10` of the
linear column stripped from a `^lo?g_?(X)` match, then `ln` of the linear
column stripped from a `^ln_?(X)` match, and otherwise a key error — and
it returns the key error exactly when no resolution path applies
(`_any_version` is false). -/
theorem C2_data_resolution (t : MesaData) (key : String) :
    t.dataResolve key = t.dataResolveSpec key ∧
    (t.dataResolve key = .keyError ↔ t.any_version key = false) := by
  constructor
  · unfold MesaData.dataResolve MesaData.dataResolveSpec MesaData.log_version
      MesaData.ln_version MesaData.exp10_version MesaData.exp_version
    cases h1 : t.in_data key
    case true => simp [h1]
    case false =>
      simp only [h1, Bool.false_eq_true, if_false]
      cases h2 : List.find? (fun p => t.in_data (p ++ key)) ["log_", "log", "lg_", "lg"]
      case some p => simp [h2]
      case none =>
        simp only [h2]
        cases h3 : List.find? (fun p => t.in_data (p ++ key)) ["ln_", "ln"]
        case some p => simp [h3]
        case none =>
          simp only [h3]
          cases h4 : exp10Target key
          case some g =>
            simp only [h4]
            cases h7 : t.in_data g
            case true => simp [h7]
            case false =>
              simp only [h7, Bool.false_eq_true, if_false]
              cases h5 : expTarget key
              case none => simp [h5]
              case some y =>
                simp only [h5]
                cases h6 : t.in_data y
                case true => simp [h6]
                case false => simp [h6]
          case none =>
            simp only [h4]
            cases h5 : expTarget key
            case none => simp [h5]
            case some y =>
              simp only [h5]
              cases h6 : t.in_data y
              case true => simp [h6]
              case false => simp [h6]
  · unfold MesaData.dataResolve MesaData.any_version
    cases h1 : t.in_data key
    case true => simp [h1]
    case false =>
      simp only [h1, Bool.false_eq_true, if_false, Bool.false_or]
      cases h2 : t.log_version key
      case some n => simp [h2]
      case none =>
        simp only [h2, Option.isSome_none, Bool.false_or]
        cases h3 : t.ln_version key
        case some n => simp [h3]
        case none =>
          simp only [h3, Option.isSome_none, Bool.false_or]
          cases h4 : t.exp10_version key
          case some n => simp [h4]
          case none =>
            simp only [h4, Option.isSome_none, Bool.or_false]
            cases h5 : t.exp_version key
            case some n => simp [h5]
            case none => simp [h4, h5]

/-! ## Claim C3 -/

theorem read_index_old_sorted (rows : List (Int × Int × Int)) :
    ((MesaProfileIndex.read_index_old rows).model_numbers).Pairwise (· ≤ ·) := by
  have htotal : IsTotal (Int × Int × Int) (fun a b => a.1 ≤ b.1) := ⟨fun a b => by omega⟩
  have htrans : IsTrans (Int × Int × Int) (fun a b => a.1 ≤ b.1) :=
    ⟨fun a b c hab hbc => by omega⟩
  have hs := @List.sorted_insertionSort _ (fun a b => a.1 ≤ b.1) _ htotal htrans rows
  show (List.map (fun r => r.1) (sortByModel rows)).Pairwise (· ≤ ·)
  refine List.Pairwise.map _ ?_ hs
  intro a b hab
  exact hab

/-- **C3** (code bug in `mesa_reader/__init__.py`): `read_index` builds the
index dict from the *unsorted* `temp_index_data` — the sorted array it just
computed is immediately overwritten — so on the catalog rows
`[(20, 1, 2), (10, 1, 1)]` the resulting `model_numbers` is `[20, 10]`,
not ascending, contradicting the claim, the method's own docstring and the
`model_numbers` attribute documentation.  The legacy flat `mesa_reader.py`
version applies the sort, yielding `[10, 20]`, and its result is sorted
ascending for every input row list. -/
theorem C3_read_index_sort_discarded :
    (MesaProfileIndex.read_index [(20, 1, 2), (10, 1, 1)]).model_numbers = [20, 10] ∧
    ¬ ((MesaProfileIndex.read_index [(20, 1, 2), (10, 1, 1)]).model_numbers).Pairwise
        (· ≤ ·) ∧
    (MesaProfileIndex.read_index_old [(20, 1, 2), (10, 1, 1)]).model_numbers = [10, 20] ∧
    (∀ rows : List (Int × Int × Int),
      ((MesaProfileIndex.read_index_old rows).model_numbers).Pairwise (· ≤ ·)) := by
  refine ⟨rfl, ?_, by decide, read_index_old_sorted⟩
  intro hp
  rw [show (MesaProfileIndex.read_index [(20, 1, 2), (10, 1, 1)]).model_numbers =
    [20, 10] from rfl] at hp
  have := (List.pairwise_cons.mp hp).1 10 (List.mem_cons_self _ _)
  omega

/-! ## Claim C6 -/

theorem pwmn_fromRows (rows : List (Int × Int × Int))
    (hnd : (rows.map (fun r => r.1)).Nodup) :
    ∀ r ∈ rows, (indexFromRows rows).profile_with_model_number r.1 = some r.2.2 := by
  induction rows with
  | nil => intro r hr; exact absurd hr (List.not_mem_nil r)
  | cons x rest ih =>
    rw [List.map_cons, List.nodup_cons] at hnd
    intro r hr
    rcases List.mem_cons.mp hr with rfl | hmem
    · unfold indexFromRows MesaProfileIndex.profile_with_model_number
        MesaProfileIndex.have_profile_with_model_number
      simp [List.findIdx_cons]
    · have hne : r.1 ≠ x.1 := by
        intro he
        exact hnd.1 (he ▸ List.mem_map.mpr ⟨r, hmem, rfl⟩)
      have ihr := ih hnd.2 r hmem
      have hbeq : (r.1 == x.1) = false := beq_eq_false_iff_ne.mpr hne
      have hbeq2 : (x.1 == r.1) = false := beq_eq_false_iff_ne.mpr (Ne.symm hne)
      unfold indexFromRows MesaProfileIndex.profile_with_model_number
        MesaProfileIndex.have_profile_with_model_number at ihr ⊢
      simp only [List.map_cons, List.contains_cons, hbeq, Bool.false_or,
        List.findIdx_cons, hbeq2, cond_false]
      by_cases hc : (List.map (fun r => r.1) rest).contains r.1 = false
      · rw [if_pos hc] at ihr
        exact absurd ihr (by simp)
      · rw [if_neg hc] at ihr
        rw [if_neg hc]
        simpa [List.getD_cons_succ] using ihr

theorem pwmn_fromRows_none (rows : List (Int × Int × Int)) (m : Int)
    (hm : ∀ r ∈ rows, r.1 ≠ m) :
    (indexFromRows rows).profile_with_model_number m = none := by
  have hnotmem : m ∉ rows.map (fun r => r.1) := by
    intro hc
    rcases List.mem_map.mp hc with ⟨r, hr, hrm⟩
    exact hm r hr hrm
  unfold indexFromRows MesaProfileIndex.profile_with_model_number
    MesaProfileIndex.have_profile_with_model_number
  rw [if_pos (by simp [hnotmem])]

/-- **C6**: on a freshly parsed catalog whose model numbers are unique,
`profile_with_model_number` inverts the stored mapping — for every stored
row it returns that row's profile number, and for a model number with no
entry it reports `ProfileError` (`none`) instead of returning a value.
Proved for both reader versions (`__init__.py` keeps file order, the
legacy module sorts; the row pairing is preserved either way). -/
theorem C6_profile_with_model_number_inverse (rows : List (Int × Int × Int))
    (hnd : (rows.map (fun r => r.1)).Nodup) :
    (∀ r ∈ rows,
      (MesaProfileIndex.read_index rows).profile_with_model_number r.1 = some r.2.2) ∧
    (∀ r ∈ rows,
      (MesaProfileIndex.read_index_old rows).profile_with_model_number r.1 =
        some r.2.2) ∧
    (∀ m : Int, (∀ r ∈ rows, r.1 ≠ m) →
      (MesaProfileIndex.read_index rows).profile_with_model_number m = none ∧
      (MesaProfileIndex.read_index_old rows).profile_with_model_number m = none) := by
  have hperm : (sortByModel rows).Perm rows := by
    unfold sortByModel
    exact List.perm_insertionSort _ rows
  have hnd' : ((sortByModel rows).map (fun r => r.1)).Nodup :=
    ((hperm.map (fun r => r.1)).symm).nodup hnd
  refine ⟨fun r hr => pwmn_fromRows rows hnd r hr, ?_, ?_⟩
  · intro r hr
    exact pwmn_fromRows (sortByModel rows) hnd' r (hperm.mem_iff.mpr hr)
  · intro m hm
    refine ⟨pwmn_fromRows_none rows m hm, ?_⟩
    exact pwmn_fromRows_none (sortByModel rows) m
      (fun r hr => hm r (hperm.mem_iff.mp hr))

/-! ## Claim C5 -/

theorem exceptMapList_ok {α β ε : Type} (f : α → Except ε β) (g : α → β) (l : List α)
    (h : ∀ a ∈ l, f a = .ok (g a)) : exceptMapList f l = .ok (l.map g) := by
  induction l with
  | nil => rfl
  | cons a l ih =>
    rw [exceptMapList, h a (List.mem_cons_self _ _),
      ih (fun b hb => h b (List.mem_cons_of_mem _ hb))]
    rfl

theorem index_of_ok_of_count_one (t : MesaData) (m : Int)
    (h : t.is_history = true)
    (hc : (t.col "model_number").countP (fun x => decide (x = m)) = 1) :
    ∃ i, t.index_of_model_number m = .ok i := by
  have hcount := filter_range_getD_count (t.col "model_number") m
  unfold MesaData.index_of_model_number
  rw [if_neg (by rw [h]; simp)]
  rw [if_neg (by omega), if_neg (by omega)]
  exact ⟨_, rfl⟩

theorem data_at_eq_ok (t : MesaData) (k : String) (m : Int)
    (h : t.is_history = true)
    (hc : (t.col "model_number").countP (fun x => decide (x = m)) = 1) :
    t.data_at_model_number k m = .ok (histValueAt t k m) := by
  rcases index_of_ok_of_count_one t m h hc with ⟨i, hi⟩
  unfold MesaData.data_at_model_number histValueAt
  rw [hi]

theorem zip_map_filter (l : List Int) (g : Int → List Int) (f : List Int → Bool) :
    ((l.zip (l.map g)).filter (fun p => f p.2)).map (fun p => p.1) =
      l.filter (fun m => f (g m)) := by
  induction l with
  | nil => rfl
  | cons a l ih =>
    simp only [List.map_cons, List.zip_cons_cons, List.filter_cons]
    by_cases hf : f (g a) = true
    · simp only [hf, if_true, List.map_cons, ih]
    · simp only [Bool.not_eq_true] at hf
      simp only [hf, Bool.false_eq_true, if_false, ih]

/-- **C5** counterexample: with history columns `model_number` and `log_L`,
the key `"L"` is resolvable by the §4.3 resolver (`_any_version` holds,
through `10**log_L`), yet `select_models` raises the key error before any
predicate evaluation, because its guard checks only the literal `in_data`
membership in `bulk_names`. -/
theorem C5_counterexample :
    exHistLog.any_version "L" = true ∧
    MesaLogDir.select_models exHistLog [1] (fun _ => true) ["L"] =
      .keyError := by
  exact ⟨rfl, rfl⟩

/-- **C5** amended: `select_models` raises the key error iff some requested
key is not a *literal* history column (`in_data`), even when the §4.3
resolver could derive it from a log/linear variant; when every key is a
literal column and every catalog model number occurs exactly once in the
history, no error is raised and the result is the sublist of the catalog's
model numbers, in the catalog's stored order, on which the predicate
holds. -/
theorem C5_select_models_literal_guard (hist : MesaData) (mns : List Int)
    (f : List Int → Bool) (keys : List String) :
    (MesaLogDir.select_models hist mns f keys = .keyError ↔
      ∃ k ∈ keys, hist.in_data k = false) ∧
    ((∀ k ∈ keys, hist.in_data k = true) → hist.is_history = true →
      (∀ m ∈ mns, (hist.col "model_number").countP (fun x => decide (x = m)) = 1) →
      MesaLogDir.select_models hist mns f keys =
        .ok (mns.filter (fun m => f (keys.map (fun k => histValueAt hist k m))))) := by
  constructor
  · unfold MesaLogDir.select_models
    by_cases hk : keys.any (fun k => !hist.in_data k) = true
    · rw [if_pos hk]
      simp only [true_iff]
      rcases List.any_eq_true.mp hk with ⟨k, hkmem, hkb⟩
      exact ⟨k, hkmem, by simpa using hkb⟩
    · rw [if_neg hk]
      have hrhs : ¬ ∃ k ∈ keys, hist.in_data k = false := by
        rintro ⟨k, hkm, hkf⟩
        exact hk (List.any_eq_true.mpr ⟨k, hkm, by simp [hkf]⟩)
      refine iff_of_false ?_ hrhs
      cases hm : exceptMapList
          (fun m => exceptMapList (fun k => hist.data_at_model_number k m) keys)
          mns with
      | error e => cases e <;> simp [hm]
      | ok rows => simp [hm]
  · intro hks hh hcnt
    unfold MesaLogDir.select_models
    rw [if_neg (by
      simp only [List.any_eq_true, Bool.not_eq_true']
      rintro ⟨k, hkm, hkf⟩
      rw [hks k hkm] at hkf
      cases hkf)]
    have houter : exceptMapList
        (fun m => exceptMapList (fun k => hist.data_at_model_number k m) keys) mns =
        .ok (mns.map (fun m => keys.map (fun k => histValueAt hist k m))) := by
      apply exceptMapList_ok
      intro m hm
      apply exceptMapList_ok
      intro k _
      exact data_at_eq_ok hist k m hh (hcnt m hm)
    rw [houter]
    exact congrArg SelectResult.ok (zip_map_filter mns _ f)

/-- Witness for the amended C5: on the two-row history, selecting on
`log_L ≥ 4` keeps exactly model number 2. -/
theorem C5_select_models_literal_guard_witness :
    MesaLogDir.select_models exHistLog [1, 2] (fun v => decide (4 ≤ v.getD 0 0))
      ["log_L"] = .ok [2] :=
  ((C5_select_models_literal_guard exHistLog [1, 2]
      (fun v => decide (4 ≤ v.getD 0 0)) ["log_L"]).2
    (by decide) rfl (by decide)).trans (by decide)

/-- Witness for C6 on a concrete two-row catalog. -/
theorem C6_profile_with_model_number_inverse_witness :
    (MesaProfileIndex.read_index [(20, 1, 2), (10, 1, 1)]).profile_with_model_number 10 =
      some 1 ∧
    (MesaProfileIndex.read_index_old
      [(20, 1, 2), (10, 1, 1)]).profile_with_model_number 10 = some 1 ∧
    (MesaProfileIndex.read_index [(20, 1, 2), (10, 1, 1)]).profile_with_model_number 15 =
      none :=
  ⟨(C6_profile_with_model_number_inverse [(20, 1, 2), (10, 1, 1)] (by decide)).1
      (10, 1, 1) (by decide),
    (C6_profile_with_model_number_inverse [(20, 1, 2), (10, 1, 1)] (by decide)).2.1
      (10, 1, 1) (by decide),
    ((C6_profile_with_model_number_inverse [(20, 1, 2), (10, 1, 1)] (by decide)).2.2 15
      (by decide)).1⟩

/-! ## Claim C7 -/

/-- **C7** counterexample: cache profile 5 while memoization is on
(`exLogDir.profile_data (-1) 5` stores identity `0`), then switch
memoization off (`exLogDirOff`); the next call still returns the
previously cached object (`hit 0`) and parses nothing (`next_id`
unchanged), contradicting the claim that a call made while memoization is
disabled never returns a previously cached object and always produces an
independently parsed Table. -/
theorem C7_counterexample :
    exLogDirOff.memoize_profiles = false ∧
    exLogDirOff.profile_dict.lookup 5 = some 0 ∧
    (exLogDirOff.profile_data (-1) 5).1 = .hit 0 ∧
    (exLogDirOff.profile_data (-1) 5).2.next_id = exLogDirOff.next_id :=
  ⟨rfl, rfl, rfl, rfl⟩

/-- **C7** amended: with memoization enabled, a repeated fetch of the same
resolved number returns the identical cached object and leaves the state
unchanged; with memoization disabled a call never inserts into the cache
(so an empty cache stays empty), and with an empty cache every call is a
fresh parse; but a call returns the previously cached object whenever the
resolved number is already cached, regardless of the memoization flag —
and fetching never touches the catalog fields, so successive calls resolve
identically. -/
theorem C7_memoization (d : MesaLogDir) (n : Int) :
    (d.memoize_profiles = true →
      (d.fetch n).2.fetch n = (.hit (pdId (d.fetch n).1), (d.fetch n).2)) ∧
    (d.memoize_profiles = false → (d.fetch n).2.profile_dict = d.profile_dict) ∧
    (d.profile_dict = [] → (d.fetch n).1 = .fresh d.next_id (d.profileFile n)) ∧
    (∀ pid, d.profile_dict.lookup n = some pid → d.fetch n = (.hit pid, d)) ∧
    (d.fetch n).2.profiles = d.profiles ∧
    (d.fetch n).2.profile_numbers = d.profile_numbers := by
  cases hl : d.profile_dict.lookup n with
  | some pid =>
    have hfetch : d.fetch n = (.hit pid, d) := by
      unfold MesaLogDir.fetch
      rw [hl]
    refine ⟨?_, ?_, ?_, ?_, ?_, ?_⟩
    · intro _
      rw [hfetch]
      exact hfetch
    · intro _
      rw [hfetch]
    · intro hd
      rw [hd] at hl
      simp at hl
    · intro pid' hpid'
      have hpe : pid = pid' := Option.some.inj hpid'
      rw [← hpe]
      exact hfetch
    · rw [hfetch]
    · rw [hfetch]
  | none =>
    have hfetch : d.fetch n = (.fresh d.next_id (d.profileFile n),
        { d with
          next_id := d.next_id + 1
          profile_dict :=
            if d.memoize_profiles then (n, d.next_id) :: d.profile_dict
            else d.profile_dict }) := by
      unfold MesaLogDir.fetch
      rw [hl]
    refine ⟨?_, ?_, ?_, ?_, ?_, ?_⟩
    · intro hm
      rw [hfetch]
      show MesaLogDir.fetch _ n = _
      unfold MesaLogDir.fetch
      simp only [hm, if_true]
      rw [show (List.lookup n ((n, d.next_id) :: d.profile_dict)) = some d.next_id by
        simp [List.lookup_cons]]
      rfl
    · intro hm
      rw [hfetch]
      simp only [hm, Bool.false_eq_true, if_false]
    · intro _
      rw [hfetch]
    · intro pid hpid
      simp at hpid
    · rw [hfetch]
    · rw [hfetch]

/-- Witness for the amended C7 at a concrete directory with memoization
enabled and an empty cache. -/
theorem C7_memoization_witness :
    exLogDir.memoize_profiles = true ∧
    (exLogDir.fetch 5).2.fetch 5 =
      (.hit (pdId (exLogDir.fetch 5).1), (exLogDir.fetch 5).2) :=
  ⟨rfl, (C7_memoization exLogDir 5).1 rfl⟩

/-! ## Claim C10 -/

/-- **C10**: with `model_number` left at its `-1` sentinel and an explicit
`profile_number`, `profile_data` uses the given number directly: the call
is exactly the cache-then-parse tail (`fetch`), no `ProfileError` or
empty-index error can arise, the outcome is independent of the catalog
(`profiles`/`profile_numbers`), and on a cache miss the snapshot path
`log_path/prefix + str(p) + '.' + suffix` is handed to the parser, so a
number absent from the index surfaces only as a file-open/parse failure
on that path. -/
theorem C10_profile_data_direct (d : MesaLogDir) (p : Int) (hp : p ≠ -1) :
    d.profile_data (-1) p = d.fetch p ∧
    (d.profile_data (-1) p).1 ≠ .profileError ∧
    (d.profile_data (-1) p).1 ≠ .emptyIndexError ∧
    (∀ q pn, (({ d with profiles := q, profile_numbers := pn
      } : MesaLogDir).profile_data (-1) p).1 = (d.profile_data (-1) p).1) ∧
    (d.profile_dict.lookup p = none →
      (d.profile_data (-1) p).1 = .fresh d.next_id
        (d.log_path ++ "/" ++ d.prefixStr ++ toString p ++ "." ++ d.suffixStr)) := by
  have hpd : ∀ e : MesaLogDir, e.profile_data (-1) p = e.fetch p := by
    intro e
    unfold MesaLogDir.profile_data
    rw [if_pos rfl, if_neg hp]
  refine ⟨hpd d, ?_, ?_, ?_, ?_⟩
  · rw [hpd d]
    unfold MesaLogDir.fetch
    cases hl : d.profile_dict.lookup p <;> simp [hl]
  · rw [hpd d]
    unfold MesaLogDir.fetch
    cases hl : d.profile_dict.lookup p <;> simp [hl]
  · intro q pn
    rw [hpd d, hpd { d with profiles := q, profile_numbers := pn }]
    unfold MesaLogDir.fetch
    cases hl : d.profile_dict.lookup p with
    | some pid => simp [hl]
    | none =>
      simp only [hl]
      rfl
  · intro hl
    rw [hpd d]
    unfold MesaLogDir.fetch
    rw [hl]
    rfl

/-- Witness for C10: profile number 5 is absent from `exLogDir`'s index,
yet the call proceeds straight to the snapshot path. -/
theorem C10_profile_data_direct_witness :
    exLogDir.profile_data (-1) 5 = exLogDir.fetch 5 ∧
    (exLogDir.profile_data (-1) 5).1 = .fresh 0 "LOGS/profile5.data" :=
  ⟨(C10_profile_data_direct exLogDir 5 (by decide)).1,
    (C10_profile_data_direct exLogDir 5 (by decide)).2.2.2.2 rfl⟩

end MesaReader
